import Mathlib

/-!
Verification of the 2048 game core (move engine and game-session state
machine) against its natural-language specification.

The move engine is embedded from `src/shared/lib/game/logic.ts`; the
session controller (`useGame`) is embedded from the variant of
`entities/board/model/useGame.ts` that carries the `reachedTarget`
win latch described by the specification.  Randomness (`Math.random`)
is externalized: the spawn step takes the random draws as explicit
parameters.  Boards are lists of rows of naturals; all claims concern
well-formed square boards, matching the spec's precondition that
malformed input is a caller error.
-/

namespace Game2048

/-- `BOARD_SIZE` from `shared/config`. -/
def BOARD_SIZE : Nat := 4

/-- `TARGET` from `shared/config`. -/
def TARGET : Nat := 2048

/-- A board: rows of cells, `0` meaning empty (`Board` type). -/
abbrev Board := List (List Nat)

/-- One tile movement record (`Move` in `shared/lib/game/types`);
`from`/`to` are (row, col) coordinates. -/
structure TileMove where
  src : Nat × Nat
  dst : Nat × Nat
  value : Nat
  merged : Bool
deriving DecidableEq, Repr

/-- Result of a directional transform (`MoveResult`). -/
structure MoveResult where
  board : Board
  moved : Bool
  gained : Nat
  moves : List TileMove
deriving DecidableEq, Repr

/-- Cell access `b[r][c]`, defaulting to 0 outside the board (the code
only ever reads in-range cells of well-formed boards). -/
def cell (b : Board) (r c : Nat) : Nat := (b.getD r []).getD c 0

/-- `createEmptyBoard`. -/
def createEmptyBoard (size : Nat) : Board :=
  List.replicate size (List.replicate size 0)

/-- The `nonZero` list built by `slideAndCombineRowLeftWithMoves`:
the non-zero entries of the row paired with their column index,
as `{ v, c }` records. -/
def nonZeroEntries (row : List Nat) : List (Nat × Nat) :=
  row.enum.filterMap fun vc => if vc.2 ≠ 0 then some (vc.2, vc.1) else none

/-- Result of the merge loop over the `nonZero` list. -/
structure RowResult where
  out : List Nat
  gained : Nat
  moves : List TileMove
deriving DecidableEq, Repr

/-- The main loop of `slideAndCombineRowLeftWithMoves`: walks the
`nonZero` list; two adjacent equal values merge into their double
(consuming both, so a merge result never merges again this pass),
otherwise the value is copied to the next write position. -/
def combineLoop (rowIndex : Nat) : List (Nat × Nat) → Nat → RowResult
  | [] => fun _ => ⟨[], 0, []⟩
  | [(v, c)] => fun writeCol =>
      ⟨[v], 0, [⟨(rowIndex, c), (rowIndex, writeCol), v, false⟩]⟩
  | (v₁, c₁) :: (v₂, c₂) :: rest => fun writeCol =>
      if v₁ = v₂ then
        let r := combineLoop rowIndex rest (writeCol + 1)
        ⟨v₁ * 2 :: r.out, v₁ * 2 + r.gained,
          ⟨(rowIndex, c₁), (rowIndex, writeCol), v₁, true⟩ ::
          ⟨(rowIndex, c₂), (rowIndex, writeCol), v₁, true⟩ :: r.moves⟩
      else
        let r := combineLoop rowIndex ((v₂, c₂) :: rest) (writeCol + 1)
        ⟨v₁ :: r.out, r.gained,
          ⟨(rowIndex, c₁), (rowIndex, writeCol), v₁, false⟩ :: r.moves⟩

/-- Result of `slideAndCombineRowLeftWithMoves` on one row. -/
structure SlideResult where
  newRow : List Nat
  gained : Nat
  moved : Bool
  moves : List TileMove
deriving DecidableEq, Repr

/-- `slideAndCombineRowLeftWithMoves row rowIndex size`: compact the
non-zero cells left, merging adjacent equal pairs once, pad with zeros
to `size`, and report whether the row changed (the JS
`!out.every((v, c) => v === row[c])` check). -/
def slideAndCombineRowLeftWithMoves (row : List Nat) (rowIndex : Nat)
    (size : Nat) : SlideResult :=
  let r := combineLoop rowIndex (nonZeroEntries row) 0
  let out := r.out ++ List.replicate (size - r.out.length) 0
  let moved := !((List.range out.length).all fun c => row.get? c == out.get? c)
  ⟨out, r.gained, moved, r.moves⟩

/-- `moveLeft`: slide every row left; `moved` is the OR across rows,
`gained` the sum, `moves` the concatenation. -/
def moveLeft (b : Board) : MoveResult :=
  let results := b.enum.map fun rrow =>
    slideAndCombineRowLeftWithMoves rrow.2 rrow.1 b.length
  { board := results.map (·.newRow)
    moved := results.any (·.moved)
    gained := (results.map (·.gained)).sum
    moves := (results.map (·.moves)).flatten }

/-- `reverseRows`. -/
def reverseRows (b : Board) : Board := b.map List.reverse

/-- `transpose`: `out[r][c] = b[c][r]` over a `b.length`-sized square. -/
def transpose (b : Board) : Board :=
  (List.range b.length).map fun r =>
    (List.range b.length).map fun c => cell b c r

/-- `moveRight`: reverse rows, slide left, reverse back; movement
columns are mirrored back into the original coordinate space. -/
def moveRight (b : Board) : MoveResult :=
  let left := moveLeft (reverseRows b)
  let size := b.length
  { board := reverseRows left.board
    moved := left.moved
    gained := left.gained
    moves := left.moves.map fun m =>
      { m with src := (m.src.1, size - 1 - m.src.2),
               dst := (m.dst.1, size - 1 - m.dst.2) } }

/-- `moveUp`: transpose, slide left, transpose back; movement
coordinates are swapped back. -/
def moveUp (b : Board) : MoveResult :=
  let left := moveLeft (transpose b)
  { board := transpose left.board
    moved := left.moved
    gained := left.gained
    moves := left.moves.map fun m =>
      { m with src := (m.src.2, m.src.1), dst := (m.dst.2, m.dst.1) } }

/-- `moveDown`: transpose, slide right, transpose back. -/
def moveDown (b : Board) : MoveResult :=
  let right := moveRight (transpose b)
  { board := transpose right.board
    moved := right.moved
    gained := right.gained
    moves := right.moves.map fun m =>
      { m with src := (m.src.2, m.src.1), dst := (m.dst.2, m.dst.1) } }

/-- The list of empty (value 0) cell coordinates scanned by
`addRandomTile`, row-major, both indices ranging over `b.length`. -/
def emptyCells (b : Board) : List (Nat × Nat) :=
  (List.range b.length).flatMap fun r =>
    (List.range b.length).filterMap fun c =>
      if cell b r c = 0 then some (r, c) else none

/-- Write value `v` at position `(r, c)` of a copy of the board
(`copyBoard` followed by `nb[r][c] = val`). -/
def setCell (b : Board) (r c v : Nat) : Board :=
  b.enum.map fun rrow =>
    if rrow.1 = r then
      rrow.2.enum.map fun cx => if cx.1 = c then v else cx.2
    else rrow.2

/-- `addRandomTile`, with the two `Math.random` draws externalized:
`pick` selects the empty cell (reduced modulo the number of empties,
matching `Math.floor(random * n) < n`), `four` tells whether the 10%
branch inserting a 4 was taken.  On a full board the input board is
returned unchanged with a `none` position. -/
def addRandomTile (b : Board) (pick : Nat) (four : Bool) :
    Board × Option (Nat × Nat) :=
  let empties := emptyCells b
  if empties.isEmpty then (b, none)
  else
    let rc := empties.getD (pick % empties.length) (0, 0)
    let val := if four then 4 else 2
    (setCell b rc.1 rc.2 val, some rc)

/-- `hasMoves`: some cell is empty, or some horizontally or vertically
adjacent pair of cells is equal. -/
def hasMoves (b : Board) : Bool :=
  ((List.range b.length).any fun r =>
    (List.range b.length).any fun c => cell b r c == 0)
  || ((List.range b.length).any fun r =>
      (List.range b.length).any fun c =>
        (decide (r + 1 < b.length) && (cell b r c == cell b (r + 1) c))
        || (decide (c + 1 < b.length) && (cell b r c == cell b r (c + 1))))

/-- `maxTile`: maximum cell value of the flattened board. -/
def maxTile (b : Board) : Nat := b.flatten.foldl max 0

/-! ## Spec-side reference for the merge primitive

The specification's `slideMergeLine` contract: scan the compacted
(zero-free) line; two adjacent equal values combine once into their
double and the combined value does not take part in any further merge
of the same pass.  This reference function makes that structurally
evident: a merge conses `v * 2` to the output and recurses only on the
cells after the pair. -/

/-- Pairwise once-only merging of a compacted line, with the score
gained; the reference against which the engine's row primitive is
verified. -/
def specMergePairs : List Nat → List Nat × Nat
  | [] => ([], 0)
  | [v] => ([v], 0)
  | v₁ :: v₂ :: rest =>
    if v₁ = v₂ then
      let r := specMergePairs rest
      (v₁ * 2 :: r.1, v₁ * 2 + r.2)
    else
      let r := specMergePairs (v₂ :: rest)
      (v₁ :: r.1, r.2)

/-- The values (first components) of the non-zero-entry list are
exactly the non-zero values of the row, in order. -/
theorem nonZeroEntries_map_fst (row : List Nat) :
    (nonZeroEntries row).map Prod.fst = row.filter (· ≠ 0) := by
  have key : ∀ (l : List Nat) (k : Nat),
      ((l.enumFrom k).filterMap fun vc =>
          if vc.2 ≠ 0 then some (vc.2, vc.1) else none).map Prod.fst
        = l.filter (· ≠ 0) := by
    intro l
    induction l with
    | nil => intro k; rfl
    | cons a t ih =>
      intro k
      have ih' := ih (k + 1)
      by_cases ha : a = 0 <;>
        simp [List.enumFrom, List.filterMap_cons, List.filter_cons, ha] <;>
        simpa using ih'
  simpa [nonZeroEntries, List.enum] using key row 0

/-- The merge loop's output values and gained score agree with the
reference pairwise merge of the value sequence, for every write column
and row index. -/
theorem combineLoop_eq_specMergePairs (i : Nat) (l : List (Nat × Nat))
    (w : Nat) :
    (combineLoop i l w).out = (specMergePairs (l.map Prod.fst)).1 ∧
    (combineLoop i l w).gained = (specMergePairs (l.map Prod.fst)).2 := by
  have main : ∀ (n : Nat) (l : List (Nat × Nat)), l.length ≤ n → ∀ w,
      (combineLoop i l w).out = (specMergePairs (l.map Prod.fst)).1 ∧
      (combineLoop i l w).gained = (specMergePairs (l.map Prod.fst)).2 := by
    intro n
    induction n with
    | zero =>
      intro l hl w
      match l, hl with
      | [], _ => simp [combineLoop, specMergePairs]
    | succ n ih =>
      intro l hl w
      match l with
      | [] => simp [combineLoop, specMergePairs]
      | [(v, c)] => simp [combineLoop, specMergePairs]
      | (v₁, c₁) :: (v₂, c₂) :: rest =>
        have hrest : rest.length ≤ n := by
          simp at hl; omega
        have htail : ((v₂, c₂) :: rest).length ≤ n := by
          simp at hl ⊢; omega
        by_cases hv : v₁ = v₂
        · have hr := ih rest hrest (w + 1)
          simp [combineLoop, specMergePairs, hv, hr.1, hr.2]
        · have hr := ih ((v₂, c₂) :: rest) htail (w + 1)
          simp [combineLoop, specMergePairs, hv, hr.1, hr.2]
  exact main l.length l le_rfl w

/-- **C1.** The row primitive is the once-per-pair merge: its output
row is the reference pairwise merge of the compacted row padded with
zeros, and its gained score is the reference gained score — a value
created by a merge never merges again in the same pass; in particular
`[2,2,2,2]` slides left to `[4,4,0,0]` with `gained = 8` and
`[2,2,4,0]` slides left to `[4,4,0,0]` with `gained = 4`. -/
theorem slideAndCombine_no_double_merge :
    (∀ (row : List Nat) (i size : Nat),
      (slideAndCombineRowLeftWithMoves row i size).newRow
        = (specMergePairs (row.filter (· ≠ 0))).1
            ++ List.replicate
                (size - (specMergePairs (row.filter (· ≠ 0))).1.length) 0
      ∧ (slideAndCombineRowLeftWithMoves row i size).gained
          = (specMergePairs (row.filter (· ≠ 0))).2)
    ∧ (slideAndCombineRowLeftWithMoves [2, 2, 2, 2] 0 4).newRow = [4, 4, 0, 0]
    ∧ (slideAndCombineRowLeftWithMoves [2, 2, 2, 2] 0 4).gained = 8
    ∧ (slideAndCombineRowLeftWithMoves [2, 2, 4, 0] 0 4).newRow = [4, 4, 0, 0]
    ∧ (slideAndCombineRowLeftWithMoves [2, 2, 4, 0] 0 4).gained = 4 := by
  refine ⟨fun row i size => ?_, ?_, ?_, ?_, ?_⟩
  · have h := combineLoop_eq_specMergePairs i (nonZeroEntries row) 0
    rw [nonZeroEntries_map_fst] at h
    exact ⟨by simp [slideAndCombineRowLeftWithMoves, h.1],
           by simp [slideAndCombineRowLeftWithMoves, h.2]⟩
  · rfl
  · rfl
  · rfl
  · rfl

/-- **C3.** `moveRight` is the row-reflection conjugate of `moveLeft`
and `moveUp` / `moveDown` are the transpose conjugates of `moveLeft` /
`moveRight`, with identical `moved` and `gained` outputs; in
particular `moveRight` on the row `[2,2,4,0]` yields `[0,0,4,4]`. -/
theorem moves_are_conjugates_of_moveLeft :
    (∀ b : Board,
      (moveRight b).board = reverseRows (moveLeft (reverseRows b)).board
      ∧ (moveRight b).moved = (moveLeft (reverseRows b)).moved
      ∧ (moveRight b).gained = (moveLeft (reverseRows b)).gained
      ∧ (moveUp b).board = transpose (moveLeft (transpose b)).board
      ∧ (moveUp b).moved = (moveLeft (transpose b)).moved
      ∧ (moveUp b).gained = (moveLeft (transpose b)).gained
      ∧ (moveDown b).board = transpose (moveRight (transpose b)).board
      ∧ (moveDown b).moved = (moveRight (transpose b)).moved
      ∧ (moveDown b).gained = (moveRight (transpose b)).gained)
    ∧ (moveRight [[2, 2, 4, 0], [0, 0, 0, 0], [0, 0, 0, 0], [0, 0, 0, 0]]).board
        = [[0, 0, 4, 4], [0, 0, 0, 0], [0, 0, 0, 0], [0, 0, 0, 0]] :=
  ⟨fun _ => ⟨rfl, rfl, rfl, rfl, rfl, rfl, rfl, rfl, rfl⟩, rfl⟩

/-- Declarative reading of `hasMoves`, shared by several claims. -/
theorem hasMoves_eq_true_iff (b : Board) :
    hasMoves b = true ↔
      (∃ r c, r < b.length ∧ c < b.length ∧ cell b r c = 0) ∨
      (∃ r c, r < b.length ∧ c < b.length ∧ cell b r c ≠ 0 ∧
        ((r + 1 < b.length ∧ cell b r c = cell b (r + 1) c) ∨
         (c + 1 < b.length ∧ cell b r c = cell b r (c + 1)))) := by
  rw [hasMoves]
  simp only [Bool.or_eq_true, List.any_eq_true, List.mem_range,
    beq_iff_eq, Bool.and_eq_true, decide_eq_true_eq]
  constructor
  · rintro (⟨r, hr, c, hc, h0⟩ | ⟨r, hr, c, hc, hadj⟩)
    · exact Or.inl ⟨r, c, hr, hc, h0⟩
    · by_cases h0 : cell b r c = 0
      · exact Or.inl ⟨r, c, hr, hc, h0⟩
      · exact Or.inr ⟨r, c, hr, hc, h0, hadj⟩
  · rintro (⟨r, c, hr, hc, h0⟩ | ⟨r, c, hr, hc, _, hadj⟩)
    · exact Or.inl ⟨r, hr, c, hc, h0⟩
    · exact Or.inr ⟨r, hr, c, hc, hadj⟩

/-- **C6.** `hasMoves` is true exactly when some cell is empty or some
two horizontally or vertically adjacent cells hold equal non-zero
values; it is false on the fully populated 4×4 checkerboard. -/
theorem hasMoves_iff_empty_or_adjacent_pair :
    (∀ b : Board,
      hasMoves b = true ↔
        (∃ r c, r < b.length ∧ c < b.length ∧ cell b r c = 0) ∨
        (∃ r c, r < b.length ∧ c < b.length ∧ cell b r c ≠ 0 ∧
          ((r + 1 < b.length ∧ cell b r c = cell b (r + 1) c) ∨
           (c + 1 < b.length ∧ cell b r c = cell b r (c + 1)))))
    ∧ hasMoves [[2, 4, 2, 4], [4, 2, 4, 2], [2, 4, 2, 4], [4, 2, 4, 2]]
        = false :=
  ⟨hasMoves_eq_true_iff, rfl⟩

/-- Membership in the scanned empty-cell list is exactly being an
in-range coordinate holding 0. -/
theorem mem_emptyCells {b : Board} {r c : Nat} :
    (r, c) ∈ emptyCells b ↔
      r < b.length ∧ c < b.length ∧ cell b r c = 0 := by
  simp only [emptyCells, List.mem_flatMap, List.mem_filterMap,
    List.mem_range, Option.ite_none_right_eq_some, Option.some_inj,
    Prod.mk.injEq]
  constructor
  · rintro ⟨r', hr', c', hc', h0, rfl, rfl⟩
    exact ⟨hr', hc', h0⟩
  · rintro ⟨hr, hc, h0⟩
    exact ⟨r, hr, c, hc, h0, rfl, rfl⟩

theorem length_setCell (b : Board) (r c v : Nat) :
    (setCell b r c v).length = b.length := by
  simp [setCell]

theorem getElem?_setCell (b : Board) (r c v i : Nat) :
    (setCell b r c v)[i]? = (b[i]?).map fun row =>
      if i = r then row.enum.map (fun cx => if cx.1 = c then v else cx.2)
      else row := by
  simp only [setCell, List.getElem?_map, List.getElem?_enum]
  cases b[i]? <;> simp

theorem getElem?_rowUpdate (row : List Nat) (c v j : Nat) :
    (row.enum.map fun cx => if cx.1 = c then v else cx.2)[j]?
      = (row[j]?).map fun x => if j = c then v else x := by
  simp only [List.getElem?_map, List.getElem?_enum]
  cases row[j]? <;> simp

theorem cell_eq_getElem? (b : Board) (r c : Nat) :
    cell b r c = (b[r]?.getD [])[c]?.getD 0 := by
  simp [cell, List.getD_eq_getD_get?, List.get?_eq_getElem?]

theorem cell_setCell_same {b : Board} {r c : Nat} (v : Nat)
    (hr : r < b.length) (hc : c < (b.getD r []).length) :
    cell (setCell b r c v) r c = v := by
  have hrow : b[r]? = some (b.getD r []) := by
    rw [List.getElem?_eq_getElem hr, List.getD_eq_getElem _ _ hr]
  have hcell : (b.getD r [])[c]? = some ((b.getD r []).getD c 0) := by
    rw [List.getElem?_eq_getElem hc, List.getD_eq_getElem _ _ hc]
  rw [cell_eq_getElem?, getElem?_setCell, hrow, Option.map_some',
    if_pos rfl, Option.getD_some, getElem?_rowUpdate, hcell,
    Option.map_some', Option.getD_some, if_pos rfl]

theorem cell_setCell_other {b : Board} {r c : Nat} (v : Nat) {r' c' : Nat}
    (h : ¬(r' = r ∧ c' = c)) :
    cell (setCell b r c v) r' c' = cell b r' c' := by
  rw [cell_eq_getElem?, cell_eq_getElem?, getElem?_setCell]
  by_cases hr : r' = r
  · subst hr
    have hc : c' ≠ c := fun hc => h ⟨rfl, hc⟩
    cases hb : b[r']? with
    | none => rfl
    | some row =>
      rw [Option.map_some', if_pos rfl, Option.getD_some, Option.getD_some,
        getElem?_rowUpdate]
      cases hcc : row[c']? <;> simp [hc]
  · cases hb : b[r']? with
    | none => rfl
    | some row => simp [hr]

/-- **C7.** On a board with no empty cell, `addRandomTile` returns the
board unchanged with a `none` position; on a board with at least one
empty cell it places a single tile valued 2 or 4 (per the externalized
random draw) into a previously empty in-range cell and leaves every
other cell unchanged.  The first conjunct identifies "no empty cell"
with the emptiness of the scanned list. -/
theorem addRandomTile_spec :
    (∀ b : Board, emptyCells b = [] ↔
      ∀ r c, r < b.length → c < b.length → cell b r c ≠ 0)
    ∧ (∀ (b : Board) (pick : Nat) (four : Bool),
        emptyCells b = [] → addRandomTile b pick four = (b, none))
    ∧ (∀ (b : Board) (pick : Nat) (four : Bool),
        (∀ row ∈ b, row.length = b.length) →
        emptyCells b ≠ [] →
        ∃ r c, (addRandomTile b pick four).2 = some (r, c)
          ∧ r < b.length ∧ c < b.length
          ∧ cell b r c = 0
          ∧ cell (addRandomTile b pick four).1 r c = (if four then 4 else 2)
          ∧ ((if four then 4 else 2) = 2 ∨ (if four then 4 else 2) = 4)
          ∧ (∀ r' c', ¬(r' = r ∧ c' = c) →
              cell (addRandomTile b pick four).1 r' c' = cell b r' c')
          ∧ (addRandomTile b pick four).1.length = b.length) := by
  refine ⟨fun b => ?_, fun b pick four h => ?_, fun b pick four hwf hne => ?_⟩
  · constructor
    · intro h r c hr hc h0
      have : (r, c) ∈ emptyCells b := mem_emptyCells.mpr ⟨hr, hc, h0⟩
      simp [h] at this
    · intro h
      by_contra hne
      obtain ⟨⟨r, c⟩, hmem⟩ := List.exists_mem_of_ne_nil _ hne
      obtain ⟨hr, hc, h0⟩ := mem_emptyCells.mp hmem
      exact h r c hr hc h0
  · simp [addRandomTile, h]
  · have hlen : 0 < (emptyCells b).length := List.length_pos.mpr hne
    have hk : pick % (emptyCells b).length < (emptyCells b).length :=
      Nat.mod_lt _ hlen
    set rc := (emptyCells b).getD (pick % (emptyCells b).length) (0, 0)
      with hrcdef
    have hmem : rc ∈ emptyCells b := by
      rw [hrcdef, List.getD_eq_getElem _ _ hk]
      exact List.getElem_mem _
    obtain ⟨hr, hc, h0⟩ :
        rc.1 < b.length ∧ rc.2 < b.length ∧ cell b rc.1 rc.2 = 0 :=
      mem_emptyCells.mp (by rwa [Prod.mk.eta])
    have haddr : addRandomTile b pick four
        = (setCell b rc.1 rc.2 (if four then 4 else 2), some rc) := by
      simp only [addRandomTile]
      rw [if_neg (by simp [List.isEmpty_iff, hne])]
    have hrowlen : (b.getD rc.1 []).length = b.length := by
      have hmemrow : b.getD rc.1 [] ∈ b := by
        rw [List.getD_eq_getElem _ _ hr]
        exact List.getElem_mem _
      exact hwf _ hmemrow
    refine ⟨rc.1, rc.2, ?_, hr, hc, h0, ?_, ?_, ?_, ?_⟩
    · rw [haddr, Prod.mk.eta]
    · rw [haddr]
      exact cell_setCell_same _ hr (by rw [hrowlen]; exact hc)
    · by_cases hf : four <;> simp [hf]
    · intro r' c' hne'
      rw [haddr]
      exact cell_setCell_other _ hne'
    · rw [haddr]
      exact length_setCell b rc.1 rc.2 _

/-! ## Terminal boards are fixed points of every directional move -/

/-- A line on which the slide primitive can do nothing: no empty cell
and no two adjacent equal values. -/
def RowBlocked (row : List Nat) : Prop :=
  (∀ x ∈ row, x ≠ 0) ∧ List.Chain' (· ≠ ·) row

/-- The pairwise merge is the identity on adjacent-distinct lines. -/
theorem specMergePairs_of_chain_ne (l : List Nat)
    (h : List.Chain' (· ≠ ·) l) : specMergePairs l = (l, 0) := by
  have main : ∀ (n : Nat) (l : List Nat), l.length ≤ n →
      List.Chain' (· ≠ ·) l → specMergePairs l = (l, 0) := by
    intro n
    induction n with
    | zero =>
      intro l hl _
      match l, hl with
      | [], _ => rfl
    | succ n ih =>
      intro l hl hc
      match l with
      | [] => rfl
      | [v] => rfl
      | v₁ :: v₂ :: rest =>
        have h12 : v₁ ≠ v₂ := List.chain'_cons.mp hc |>.1
        have htail : List.Chain' (· ≠ ·) (v₂ :: rest) :=
          List.chain'_cons.mp hc |>.2
        have hlen : (v₂ :: rest).length ≤ n := by simp at hl ⊢; omega
        rw [specMergePairs, if_neg h12, ih _ hlen htail]
  exact main l.length l le_rfl h

/-- The row primitive does nothing on a blocked row of full length. -/
theorem slide_of_rowBlocked {row : List Nat} {i size : Nat}
    (hb : RowBlocked row) (hlen : row.length = size) :
    (slideAndCombineRowLeftWithMoves row i size).newRow = row ∧
    (slideAndCombineRowLeftWithMoves row i size).gained = 0 ∧
    (slideAndCombineRowLeftWithMoves row i size).moved = false := by
  have hfilter : row.filter (· ≠ 0) = row := by
    rw [List.filter_eq_self]
    intro x hx
    simpa using hb.1 x hx
  have hcl := combineLoop_eq_specMergePairs i (nonZeroEntries row) 0
  rw [nonZeroEntries_map_fst, hfilter, specMergePairs_of_chain_ne _ hb.2]
    at hcl
  have hout : (combineLoop i (nonZeroEntries row) 0).out = row := hcl.1
  have hnew : (slideAndCombineRowLeftWithMoves row i size).newRow = row := by
    simp only [slideAndCombineRowLeftWithMoves, hout]
    rw [hlen, Nat.sub_self]
    simp
  refine ⟨hnew, ?_, ?_⟩
  · simp [slideAndCombineRowLeftWithMoves, hcl.2]
  · have : (slideAndCombineRowLeftWithMoves row i size).moved
        = !((List.range row.length).all fun c => row.get? c == row.get? c) := by
      have hrow := hnew
      simp only [slideAndCombineRowLeftWithMoves] at hrow ⊢
      rw [hrow]
    rw [this]
    simp

/-- `moveLeft` does nothing on a well-formed board whose rows are all
blocked. -/
theorem moveLeft_of_blocked {b : Board}
    (hwf : ∀ row ∈ b, row.length = b.length)
    (hb : ∀ row ∈ b, RowBlocked row) :
    (moveLeft b).board = b ∧ (moveLeft b).moved = false ∧
    (moveLeft b).gained = 0 := by
  have hmem : ∀ p ∈ b.enum, p.2 ∈ b := by
    intro p hp
    exact List.getElem?_mem (List.mem_enum_iff_getElem?.mp hp)
  refine ⟨?_, ?_, ?_⟩
  · show (b.enum.map fun rrow =>
      slideAndCombineRowLeftWithMoves rrow.2 rrow.1 b.length).map (·.newRow)
        = b
    rw [List.map_map]
    have : ∀ p ∈ b.enum,
        ((fun r : SlideResult => r.newRow) ∘ fun rrow : Nat × List Nat =>
          slideAndCombineRowLeftWithMoves rrow.2 rrow.1 b.length) p
          = Prod.snd p := by
      intro p hp
      exact (slide_of_rowBlocked (hb _ (hmem p hp)) (hwf _ (hmem p hp))).1
    rw [List.map_congr_left this, List.enum_map_snd]
  · show ((b.enum.map fun rrow =>
      slideAndCombineRowLeftWithMoves rrow.2 rrow.1 b.length).any (·.moved))
        = false
    rw [List.any_eq_false]
    intro x hx
    obtain ⟨p, hp, rfl⟩ := List.mem_map.mp hx
    rw [(slide_of_rowBlocked (hb _ (hmem p hp)) (hwf _ (hmem p hp))).2.2]
    simp
  · show (((b.enum.map fun rrow =>
      slideAndCombineRowLeftWithMoves rrow.2 rrow.1 b.length).map
        (·.gained)).sum) = 0
    rw [List.map_map, List.sum_eq_zero]
    intro x hx
    obtain ⟨p, hp, hpx⟩ := List.mem_map.mp hx
    rw [← hpx]
    simp only [Function.comp]
    exact (slide_of_rowBlocked (hb _ (hmem p hp)) (hwf _ (hmem p hp))).2.1

theorem list_ext_getD {α : Type} (d : α) {xs ys : List α}
    (hlen : xs.length = ys.length)
    (h : ∀ c, c < xs.length → xs.getD c d = ys.getD c d) : xs = ys := by
  apply List.ext_getElem hlen
  intro n h1 h2
  have hn := h n h1
  rwa [List.getD_eq_getElem _ _ h1, List.getD_eq_getElem _ _ h2] at hn

theorem getD_map_range {α : Type} (d : α) (f : Nat → α) {c n : Nat}
    (hc : c < n) :
    ((List.range n).map f).getD c d = f c := by
  rw [List.getD_eq_getElem _ _ (by simpa using hc)]
  simp

theorem length_reverseRows (b : Board) :
    (reverseRows b).length = b.length := by
  simp [reverseRows]

theorem length_transpose (b : Board) :
    (transpose b).length = b.length := by
  simp [transpose]

theorem reverseRows_reverseRows (b : Board) :
    reverseRows (reverseRows b) = b := by
  simp [reverseRows, List.map_map, Function.comp_def]

theorem transpose_row (b : Board) {r : Nat} (hr : r < b.length) :
    (transpose b).getD r [] = (List.range b.length).map fun c => cell b c r := by
  rw [transpose, List.getD_eq_getElem _ _ (by simpa using hr)]
  simp

theorem cell_transpose {b : Board} {r c : Nat}
    (hr : r < b.length) (hc : c < b.length) :
    cell (transpose b) r c = cell b c r := by
  show ((transpose b).getD r []).getD c 0 = cell b c r
  rw [transpose_row b hr, getD_map_range _ _ hc]

theorem transpose_transpose {b : Board}
    (hwf : ∀ row ∈ b, row.length = b.length) :
    transpose (transpose b) = b := by
  have hn : (transpose b).length = b.length := length_transpose b
  apply list_ext_getD ([] : List Nat)
  · rw [length_transpose, hn]
  · intro r hr
    rw [length_transpose, hn] at hr
    have hrow : b.getD r [] ∈ b := by
      rw [List.getD_eq_getElem _ _ hr]
      exact List.getElem_mem _
    rw [transpose_row (transpose b) (by rwa [hn]), hn]
    apply list_ext_getD (0 : Nat)
    · rw [List.length_map, List.length_range, hwf _ hrow]
    · intro c hc
      rw [List.length_map, List.length_range] at hc
      rw [getD_map_range _ _ hc, cell_transpose hc hr]
      rfl

/-- Blockedness is preserved by reversing a line. -/
theorem rowBlocked_reverse {row : List Nat} (h : RowBlocked row) :
    RowBlocked row.reverse := by
  refine ⟨fun x hx => h.1 x (List.mem_reverse.mp hx), ?_⟩
  rw [List.chain'_reverse]
  exact h.2.imp fun a b hab => Ne.symm hab

/-- On a board with no legal move: no cell is empty, no two
horizontally adjacent cells are equal, no two vertically adjacent
cells are equal. -/
theorem hasMoves_false_facts {b : Board} (h : hasMoves b = false) :
    (∀ r c, r < b.length → c < b.length → cell b r c ≠ 0) ∧
    (∀ r c, r < b.length → c + 1 < b.length →
      cell b r c ≠ cell b r (c + 1)) ∧
    (∀ r c, r + 1 < b.length → c < b.length →
      cell b r c ≠ cell b (r + 1) c) := by
  have hnot := (hasMoves_eq_true_iff b).not.mp (by simp [h])
  push_neg at hnot
  obtain ⟨h1, h2⟩ := hnot
  refine ⟨fun r c hr hc => h1 r c hr hc, ?_, ?_⟩
  · intro r c hr hc1 heq
    have hc : c < b.length := Nat.lt_of_succ_lt hc1
    have hnz : cell b r c ≠ 0 := h1 r c hr hc
    have := h2 r c hr hc hnz
    exact (this.2 hc1) heq
  · intro r c hr1 hc heq
    have hr : r < b.length := Nat.lt_of_succ_lt hr1
    have hnz : cell b r c ≠ 0 := h1 r c hr hc
    have := h2 r c hr hc hnz
    exact (this.1 hr1) heq

/-- Each row of a no-move board is blocked. -/
theorem rows_blocked_of_hasMoves_false {b : Board}
    (hwf : ∀ row ∈ b, row.length = b.length)
    (h : hasMoves b = false) :
    ∀ row ∈ b, RowBlocked row := by
  obtain ⟨hz, hh, _⟩ := hasMoves_false_facts h
  intro row hrow
  obtain ⟨r, hr, hget⟩ := List.mem_iff_getElem.mp hrow
  have hgetD : b.getD r [] = row := by
    rw [List.getD_eq_getElem _ _ hr, hget]
  have hlen : row.length = b.length := hwf row hrow
  have hcell : ∀ c, c < row.length → row.getD c 0 = cell b r c := by
    intro c _
    rw [cell, hgetD]
  constructor
  · intro x hx
    obtain ⟨c, hc, hxc⟩ := List.mem_iff_getElem.mp hx
    rw [← hxc, ← List.getD_eq_getElem _ 0 hc, hcell c hc]
    exact hz r c hr (hlen ▸ hc)
  · rw [List.chain'_iff_get]
    intro i hi
    have h1 : i < row.length := by omega
    have h2 : i + 1 < row.length := by omega
    have e1 : row.get ⟨i, h1⟩ = cell b r i := by
      rw [List.get_eq_getElem, ← List.getD_eq_getElem _ 0 h1]
      exact hcell i h1
    have e2 : row.get ⟨i + 1, h2⟩ = cell b r (i + 1) := by
      rw [List.get_eq_getElem, ← List.getD_eq_getElem _ 0 h2]
      exact hcell (i + 1) h2
    rw [e1, e2]
    exact hh r i hr (by omega)

/-- Each row of the transpose of a no-move board is blocked. -/
theorem transpose_rows_blocked_of_hasMoves_false {b : Board}
    (h : hasMoves b = false) :
    ∀ row ∈ transpose b, RowBlocked row := by
  obtain ⟨hz, _, hv⟩ := hasMoves_false_facts h
  intro row hrow
  obtain ⟨r, hr, hget⟩ := List.mem_iff_getElem.mp hrow
  rw [length_transpose] at hr
  have hget' : row = (List.range b.length).map fun c => cell b c r := by
    rw [← hget, ← List.getD_eq_getElem _ [], transpose_row b hr]
  subst hget'
  constructor
  · intro x hx
    obtain ⟨c, hc, hxc⟩ := List.mem_map.mp hx
    rw [← hxc]
    exact hz c r (List.mem_range.mp hc) hr
  · rw [List.chain'_iff_get]
    intro i hi
    rw [List.length_map, List.length_range] at hi
    rw [List.get_eq_getElem, List.get_eq_getElem]
    simp only [List.getElem_map, List.getElem_range]
    exact hv i r (by omega) hr

/-- **C10.** On any well-formed board with no legal move (`hasMoves`
false), all four directional transforms return `moved = false`,
`gained = 0` and the input board unchanged: the terminal-state oracle
agrees with the move engine. -/
theorem hasMoves_false_all_moves_noop :
    ∀ b : Board, (∀ row ∈ b, row.length = b.length) → hasMoves b = false →
      (moveLeft b).board = b ∧ (moveLeft b).moved = false ∧
        (moveLeft b).gained = 0 ∧
      (moveRight b).board = b ∧ (moveRight b).moved = false ∧
        (moveRight b).gained = 0 ∧
      (moveUp b).board = b ∧ (moveUp b).moved = false ∧
        (moveUp b).gained = 0 ∧
      (moveDown b).board = b ∧ (moveDown b).moved = false ∧
        (moveDown b).gained = 0 := by
  intro b hwf h
  have hbl := rows_blocked_of_hasMoves_false hwf h
  have htbl := transpose_rows_blocked_of_hasMoves_false h
  have hwfrev : ∀ row ∈ reverseRows b, row.length = (reverseRows b).length := by
    intro row hrow
    obtain ⟨row', hrow', rfl⟩ := List.mem_map.mp hrow
    rw [List.length_reverse, length_reverseRows]
    exact hwf _ hrow'
  have hwft : ∀ row ∈ transpose b, row.length = (transpose b).length := by
    intro row hrow
    obtain ⟨r, _, rfl⟩ := List.mem_map.mp hrow
    rw [length_transpose]
    simp
  have hrevbl : ∀ row ∈ reverseRows b, RowBlocked row := by
    intro row hrow
    obtain ⟨row', hrow', rfl⟩ := List.mem_map.mp hrow
    exact rowBlocked_reverse (hbl _ hrow')
  have hrevtbl : ∀ row ∈ reverseRows (transpose b), RowBlocked row := by
    intro row hrow
    obtain ⟨row', hrow', rfl⟩ := List.mem_map.mp hrow
    exact rowBlocked_reverse (htbl _ hrow')
  have hwfrevt : ∀ row ∈ reverseRows (transpose b),
      row.length = (reverseRows (transpose b)).length := by
    intro row hrow
    obtain ⟨row', hrow', rfl⟩ := List.mem_map.mp hrow
    rw [List.length_reverse, length_reverseRows]
    exact hwft _ hrow'
  have L := moveLeft_of_blocked hwf hbl
  have Lrev := moveLeft_of_blocked hwfrev hrevbl
  have Lt := moveLeft_of_blocked hwft htbl
  have Lrevt := moveLeft_of_blocked hwfrevt hrevtbl
  have hRb : (moveRight (transpose b)).board = transpose b := by
    show reverseRows (moveLeft (reverseRows (transpose b))).board = transpose b
    rw [Lrevt.1, reverseRows_reverseRows]
  refine ⟨L.1, L.2.1, L.2.2, ?_, Lrev.2.1, Lrev.2.2, ?_, Lt.2.1, Lt.2.2,
    ?_, Lrevt.2.1, Lrevt.2.2⟩
  · show reverseRows (moveLeft (reverseRows b)).board = b
    rw [Lrev.1, reverseRows_reverseRows]
  · show transpose (moveLeft (transpose b)).board = b
    rw [Lt.1, transpose_transpose hwf]
  · show transpose (moveRight (transpose b)).board = b
    rw [hRb, transpose_transpose hwf]

/-- Witness for C10 at the checkerboard terminal board. -/
theorem hasMoves_false_all_moves_noop_witness :
    (∀ row ∈ ([[2, 4, 2, 4], [4, 2, 4, 2], [2, 4, 2, 4], [4, 2, 4, 2]] :
        Board), row.length
        = ([[2, 4, 2, 4], [4, 2, 4, 2], [2, 4, 2, 4], [4, 2, 4, 2]] :
            Board).length)
    ∧ hasMoves [[2, 4, 2, 4], [4, 2, 4, 2], [2, 4, 2, 4], [4, 2, 4, 2]]
        = false
    ∧ (moveLeft [[2, 4, 2, 4], [4, 2, 4, 2], [2, 4, 2, 4], [4, 2, 4, 2]]).board
        = [[2, 4, 2, 4], [4, 2, 4, 2], [2, 4, 2, 4], [4, 2, 4, 2]] :=
  ⟨by decide, rfl,
    (hasMoves_false_all_moves_noop
      [[2, 4, 2, 4], [4, 2, 4, 2], [2, 4, 2, 4], [4, 2, 4, 2]]
      (by decide) rfl).1⟩

/-- Witness for C7: a full board spawn fails over unchanged, and a
board with empty cells accepts a spawn. -/
theorem addRandomTile_spec_witness :
    emptyCells ([[2, 4, 2, 4], [4, 2, 4, 2], [2, 4, 2, 4], [4, 2, 4, 2]] :
        Board) = []
    ∧ addRandomTile [[2, 4, 2, 4], [4, 2, 4, 2], [2, 4, 2, 4], [4, 2, 4, 2]]
        3 false
        = ([[2, 4, 2, 4], [4, 2, 4, 2], [2, 4, 2, 4], [4, 2, 4, 2]], none)
    ∧ (∀ row ∈ ([[2, 0, 2, 4], [4, 2, 4, 2], [2, 4, 2, 4], [4, 2, 4, 2]] :
          Board), row.length = 4)
    ∧ emptyCells ([[2, 0, 2, 4], [4, 2, 4, 2], [2, 4, 2, 4], [4, 2, 4, 2]] :
        Board) ≠ []
    ∧ (∃ r c,
        (addRandomTile [[2, 0, 2, 4], [4, 2, 4, 2], [2, 4, 2, 4], [4, 2, 4, 2]]
          0 true).2 = some (r, c)
        ∧ r < 4 ∧ c < 4
        ∧ cell [[2, 0, 2, 4], [4, 2, 4, 2], [2, 4, 2, 4], [4, 2, 4, 2]] r c = 0
        ∧ cell (addRandomTile
            [[2, 0, 2, 4], [4, 2, 4, 2], [2, 4, 2, 4], [4, 2, 4, 2]]
            0 true).1 r c = (if true then 4 else 2)
        ∧ ((if true then 4 else 2) = 2 ∨ (if true then 4 else 2) = 4)
        ∧ (∀ r' c', ¬(r' = r ∧ c' = c) →
            cell (addRandomTile
              [[2, 0, 2, 4], [4, 2, 4, 2], [2, 4, 2, 4], [4, 2, 4, 2]]
              0 true).1 r' c'
              = cell [[2, 0, 2, 4], [4, 2, 4, 2], [2, 4, 2, 4], [4, 2, 4, 2]]
                  r' c')
        ∧ (addRandomTile [[2, 0, 2, 4], [4, 2, 4, 2], [2, 4, 2, 4],
            [4, 2, 4, 2]] 0 true).1.length = 4) :=
  ⟨rfl,
   addRandomTile_spec.2.1 _ 3 false rfl,
   by decide,
   by decide,
   addRandomTile_spec.2.2 _ 0 true (by decide) (by decide)⟩

/-! ## Game session state machine

Embedded from the `useGame` hook variant carrying the `reachedTarget`
win latch.  A state transition returns the next in-memory state
together with a flag telling whether a persistence write (`persistAll`
or a direct storage write) was issued.  The two `Math.random` draws of
the spawn step are externalized as arguments of `applyMove`. -/

/-- Input directions dispatched by `applyMove`'s `movers` table. -/
inductive Direction
  | left
  | right
  | up
  | down
deriving DecidableEq, Repr

/-- `movers[dir]` from `applyMove`. -/
def moveDirection : Direction → Board → MoveResult
  | .left => moveLeft
  | .right => moveRight
  | .up => moveUp
  | .down => moveDown

/-- One undo-history entry: the pre-move snapshot pushed by
`applyMove`. -/
structure HistEntry where
  board : Board
  score : Nat
  won : Bool
  over : Bool
deriving DecidableEq, Repr

/-- The session state held by `useGame` (minus presentation-only
fields `lastDir` and `animMoves`). -/
structure GameState where
  board : Board
  score : Nat
  best : Nat
  won : Bool
  over : Bool
  lastSpawn : Option (Nat × Nat)
  history : List HistEntry
  reachedTarget : Bool
deriving DecidableEq, Repr

/-- `applyMove(dir)`: no-op when `over` or when the directional
transform did not move; otherwise push the pre-move snapshot (keeping
the 3 newest entries), spawn a random tile, add `gained` to the score,
raise `best`, latch the one-time win flag, detect game over, and
persist. -/
def applyMove (dir : Direction) (pick : Nat) (four : Bool)
    (s : GameState) : GameState × Bool :=
  if s.over then (s, false)
  else
    let res := moveDirection dir s.board
    if !res.moved then (s, false)
    else
      let history' :=
        (HistEntry.mk s.board s.score s.won s.over :: s.history).take 3
      let ns := s.score + res.gained
      let spawned := addRandomTile res.board pick four
      let nb := spawned.1
      let maxV := maxTile nb
      ({ board := nb
         score := ns
         best := if ns > s.best then ns else s.best
         won := if !s.reachedTarget && decide (maxV ≥ TARGET) then true
           else s.won
         over := if !(hasMoves nb) then true else s.over
         lastSpawn := spawned.2
         history := history'
         reachedTarget := if !s.reachedTarget && decide (maxV ≥ TARGET)
           then true else s.reachedTarget }, true)

/-- `undo()`: no-op (and no write) on empty history; otherwise pop the
newest snapshot, restore board/score/won/over, clear `lastSpawn`, keep
`reachedTarget`, and persist. -/
def undo (s : GameState) : GameState × Bool :=
  match s.history with
  | [] => (s, false)
  | prev :: rest =>
    ({ board := prev.board
       score := prev.score
       best := s.best
       won := prev.won
       over := prev.over
       lastSpawn := none
       history := rest
       reachedTarget := s.reachedTarget }, true)

/-- `continueGame()`: dismiss the win modal, keeping the latch. -/
def continueGame (s : GameState) : GameState × Bool :=
  ({ s with won := false }, true)

/-- `newGame()`: fresh board with two spawned tiles, score and flags
reset, history cleared, the `reachedTarget` latch reset; `best` kept. -/
def newGame (p₁ : Nat) (f₁ : Bool) (p₂ : Nat) (f₂ : Bool)
    (s : GameState) : GameState × Bool :=
  let b₁ := (addRandomTile (createEmptyBoard BOARD_SIZE) p₁ f₁).1
  let b₂ := addRandomTile b₁ p₂ f₂
  ({ board := b₂.1
     score := 0
     best := s.best
     won := false
     over := false
     lastSpawn := b₂.2
     history := []
     reachedTarget := false }, true)

/-- A session stimulus within one game (no `newGame`). -/
inductive SessionOp
  | move (dir : Direction) (pick : Nat) (four : Bool)
  | undoOp
  | continueOp
deriving DecidableEq, Repr

def applyOp : SessionOp → GameState → GameState
  | .move dir pick four, s => (applyMove dir pick four s).1
  | .undoOp, s => (undo s).1
  | .continueOp, s => (continueGame s).1

def applyOps : List SessionOp → GameState → GameState
  | [], s => s
  | op :: ops, s => applyOps ops (applyOp op s)

theorem applyMove_over {dir : Direction} {pick : Nat} {four : Bool}
    {s : GameState} (h : s.over = true) :
    applyMove dir pick four s = (s, false) := by
  simp [applyMove, h]

theorem applyMove_not_moved {dir : Direction} {pick : Nat} {four : Bool}
    {s : GameState} (ho : s.over = false)
    (hm : (moveDirection dir s.board).moved = false) :
    applyMove dir pick four s = (s, false) := by
  simp [applyMove, ho, hm]

/-- **C4.** `applyMove` is a no-op — every session field unchanged and
no persistence write issued — whenever the game is over or the
directional transform reports `moved = false`. -/
theorem applyMove_noop :
    ∀ (dir : Direction) (pick : Nat) (four : Bool) (s : GameState),
      s.over = true ∨ (moveDirection dir s.board).moved = false →
      applyMove dir pick four s = (s, false) := by
  intro dir pick four s h
  rcases h with h | h
  · exact applyMove_over h
  · by_cases ho : s.over
    · exact applyMove_over ho
    · exact applyMove_not_moved (by simpa using ho) h

/-- Witness for C4: a move on a terminal state, and a left move that
cannot slide, both leave the state untouched without persisting. -/
theorem applyMove_noop_witness :
    applyMove .left 0 false
      ⟨[[2, 0, 0, 0], [0, 0, 0, 0], [0, 0, 0, 0], [0, 0, 0, 0]],
        0, 0, false, true, none, [], false⟩
      = (⟨[[2, 0, 0, 0], [0, 0, 0, 0], [0, 0, 0, 0], [0, 0, 0, 0]],
          0, 0, false, true, none, [], false⟩, false)
    ∧ applyMove .left 1 true
      ⟨[[2, 4, 8, 16], [0, 0, 0, 0], [0, 0, 0, 0], [0, 0, 0, 0]],
        0, 0, false, false, none, [], false⟩
      = (⟨[[2, 4, 8, 16], [0, 0, 0, 0], [0, 0, 0, 0], [0, 0, 0, 0]],
          0, 0, false, false, none, [], false⟩, false) :=
  ⟨applyMove_noop _ _ _ _ (Or.inl rfl),
   applyMove_noop _ _ _ _ (Or.inr rfl)⟩

theorem reachedTarget_applyMove {dir : Direction} {pick : Nat}
    {four : Bool} {s : GameState} (h : s.reachedTarget = true) :
    ((applyMove dir pick four s).1).reachedTarget = true := by
  by_cases ho : s.over
  · simp [applyMove, ho, h]
  · by_cases hm : (moveDirection dir s.board).moved
    · simp [applyMove, ho, hm, h]
    · simp [applyMove, ho, hm, h]

theorem won_applyMove_latched {dir : Direction} {pick : Nat}
    {four : Bool} {s : GameState} (h : s.reachedTarget = true) :
    ((applyMove dir pick four s).1).won = s.won := by
  by_cases ho : s.over
  · simp [applyMove, ho]
  · by_cases hm : (moveDirection dir s.board).moved
    · simp [applyMove, ho, hm, h]
    · simp [applyMove, ho, hm]

theorem history_undo (s : GameState) :
    ((undo s).1).history = s.history.tail := by
  cases hs : s.history <;> simp [undo, hs]

theorem reachedTarget_undo (s : GameState) :
    ((undo s).1).reachedTarget = s.reachedTarget := by
  cases hs : s.history <;> simp [undo, hs]

theorem reachedTarget_applyOps {s : GameState}
    (h : s.reachedTarget = true) :
    ∀ ops : List SessionOp, (applyOps ops s).reachedTarget = true := by
  intro ops
  induction ops generalizing s with
  | nil => exact h
  | cons op ops ih =>
    cases op with
    | move dir pick four => exact ih (reachedTarget_applyMove h)
    | undoOp => exact ih ((reachedTarget_undo s).trans h)
    | continueOp => exact ih h

/-- **C2.** Once `reachedTarget` is latched, every later session
operation (move, undo, continue — no `newGame`) keeps it latched, and
`applyMove` never changes `won` any more (in particular it never sets
it back to true after `continueGame` cleared it); only `newGame`
resets the latch. -/
theorem win_latch_once :
    ∀ s : GameState, s.reachedTarget = true →
      ∀ ops : List SessionOp,
        (applyOps ops s).reachedTarget = true
        ∧ (∀ (dir : Direction) (pick : Nat) (four : Bool),
            ((applyMove dir pick four (applyOps ops s)).1).won
              = (applyOps ops s).won)
        ∧ (∀ (p₁ : Nat) (f₁ : Bool) (p₂ : Nat) (f₂ : Bool),
            ((newGame p₁ f₁ p₂ f₂ (applyOps ops s)).1).reachedTarget
              = false) := by
  intro s h ops
  have hrt := reachedTarget_applyOps h ops
  exact ⟨hrt, fun dir pick four => won_applyMove_latched hrt,
    fun p₁ f₁ p₂ f₂ => rfl⟩

/-- Witness for C2: a latched state keeps the latch and `won` across a
continue, a real move and an undo. -/
theorem win_latch_once_witness :
    (⟨[[2048, 2, 0, 0], [0, 0, 0, 0], [0, 0, 0, 0], [0, 0, 0, 0]],
        0, 0, false, false, none, [], true⟩ : GameState).reachedTarget
      = true
    ∧ (applyOps [.continueOp, .move .left 0 false, .undoOp]
        ⟨[[2048, 2, 0, 0], [0, 0, 0, 0], [0, 0, 0, 0], [0, 0, 0, 0]],
          0, 0, false, false, none, [], true⟩).reachedTarget = true
    ∧ ((applyMove .left 0 false
        (applyOps [.continueOp, .move .left 0 false, .undoOp]
          ⟨[[2048, 2, 0, 0], [0, 0, 0, 0], [0, 0, 0, 0], [0, 0, 0, 0]],
            0, 0, false, false, none, [], true⟩)).1).won
      = (applyOps [.continueOp, .move .left 0 false, .undoOp]
          ⟨[[2048, 2, 0, 0], [0, 0, 0, 0], [0, 0, 0, 0], [0, 0, 0, 0]],
            0, 0, false, false, none, [], true⟩).won :=
  ⟨rfl,
   (win_latch_once _ rfl [.continueOp, .move .left 0 false, .undoOp]).1,
   (win_latch_once _ rfl
      [.continueOp, .move .left 0 false, .undoOp]).2.1 .left 0 false⟩

/-- One `applyMove` call described by its arguments. -/
def moveStep (s : GameState) (m : Direction × Nat × Bool) : GameState :=
  (applyMove m.1 m.2.1 m.2.2 s).1

def runMoves : List (Direction × Nat × Bool) → GameState → GameState
  | [], s => s
  | m :: ms, s => runMoves ms (moveStep s m)

/-- All the listed moves are successful (not blocked by `over`, and
each directional transform actually moves) when run in sequence. -/
def movesSucceed : List (Direction × Nat × Bool) → GameState → Bool
  | [], _ => true
  | m :: ms, s =>
    (!s.over && (moveDirection m.1 s.board).moved)
      && movesSucceed ms (moveStep s m)

theorem history_applyMove_success {dir : Direction} {pick : Nat}
    {four : Bool} {s : GameState} (ho : s.over = false)
    (hm : (moveDirection dir s.board).moved = true) :
    ((applyMove dir pick four s).1).history.length
      = min 3 (s.history.length + 1) := by
  simp [applyMove, ho, hm, List.length_take]
  omega

theorem history_le_applyMove {dir : Direction} {pick : Nat} {four : Bool}
    {s : GameState} (h : s.history.length ≤ 3) :
    ((applyMove dir pick four s).1).history.length ≤ 3 := by
  by_cases ho : s.over
  · rw [applyMove_over ho]
    exact h
  · by_cases hm : (moveDirection dir s.board).moved
    · rw [history_applyMove_success (by simpa using ho) hm]
      omega
    · rw [applyMove_not_moved (by simpa using ho) (by simpa using hm)]
      exact h

theorem history_runMoves {ms : List (Direction × Nat × Bool)}
    {s : GameState} (h3 : s.history.length ≤ 3)
    (hsucc : movesSucceed ms s = true) :
    (runMoves ms s).history.length
      = min 3 (s.history.length + ms.length) := by
  induction ms generalizing s with
  | nil =>
    simp only [runMoves, List.length_nil, Nat.add_zero]
    omega
  | cons m ms ih =>
    obtain ⟨⟨ho, hm⟩, hrest⟩ :
        (s.over = false ∧ (moveDirection m.1 s.board).moved = true)
          ∧ movesSucceed ms (moveStep s m) = true := by
      simpa [movesSucceed, Bool.and_eq_true, Bool.not_eq_true'] using hsucc
    have hstep : (moveStep s m).history.length
        = min 3 (s.history.length + 1) :=
      history_applyMove_success ho hm
    rw [runMoves, ih (by rw [hstep]; omega) hrest, hstep]
    simp only [List.length_cons]
    omega

theorem history_le_applyOps :
    ∀ (ops : List SessionOp) (s : GameState), s.history.length ≤ 3 →
      (applyOps ops s).history.length ≤ 3 := by
  intro ops
  induction ops with
  | nil => exact fun s h => h
  | cons op ops ih =>
    intro s h
    cases op with
    | move dir pick four => exact ih _ (history_le_applyMove h)
    | undoOp =>
      refine ih _ ?_
      rw [applyOp, history_undo, List.length_tail]
      omega
    | continueOp => exact ih _ h

theorem undo_of_history_nil {s : GameState} (h : s.history = []) :
    undo s = (s, false) := by
  simp [undo, h]

/-- **C5.** The undo history is bounded by 3 under all session
operations; 5 consecutive successful moves leave it at exactly 3;
`undo` on an empty history is a no-op with no persistence write, and
otherwise pops the newest snapshot, restoring exactly board, score,
won and over, clearing `lastSpawn`, keeping `best` and the latch, and
persisting; after 3 undos the history is exhausted so a 4th undo is a
no-op. -/
theorem undo_history_contract :
    (∀ (s : GameState) (ops : List SessionOp), s.history.length ≤ 3 →
      (applyOps ops s).history.length ≤ 3)
    ∧ (∀ (s : GameState) (ms : List (Direction × Nat × Bool)),
        s.history.length ≤ 3 → ms.length = 5 → movesSucceed ms s = true →
        (runMoves ms s).history.length = 3)
    ∧ (∀ s : GameState, s.history = [] → undo s = (s, false))
    ∧ (∀ (s : GameState) (prev : HistEntry) (rest : List HistEntry),
        s.history = prev :: rest →
        undo s = (⟨prev.board, prev.score, s.best, prev.won, prev.over,
          none, rest, s.reachedTarget⟩, true))
    ∧ (∀ s : GameState, s.history.length ≤ 3 →
        undo ((undo ((undo ((undo s).1)).1)).1)
          = ((undo ((undo ((undo s).1)).1)).1, false)) := by
  refine ⟨fun s ops h => history_le_applyOps ops s h,
    fun s ms h3 h5 hsucc => ?_, fun s h => ?_, fun s prev rest h => ?_,
    fun s h => ?_⟩
  · rw [history_runMoves h3 hsucc, h5]
    omega
  · exact undo_of_history_nil h
  · simp [undo, h]
  · have hlen : ((undo ((undo ((undo s).1)).1)).1).history = [] := by
      apply List.eq_nil_of_length_eq_zero
      rw [history_undo, history_undo, history_undo]
      simp only [List.length_tail]
      omega
    exact undo_of_history_nil hlen

/-- Witness for C5 on a concrete game: five successful moves fill the
history to exactly 3, an empty-history undo is a no-op, a non-empty
undo restores the popped snapshot, and a 4th consecutive undo does
nothing. -/
theorem undo_history_contract_witness :
    ((⟨[[2, 2, 0, 0], [0, 0, 0, 0], [0, 0, 0, 0], [0, 0, 0, 0]],
        0, 0, false, false, none, [], false⟩ : GameState).history.length ≤ 3)
    ∧ ([(.left, 0, false), (.right, 0, false), (.left, 0, false),
        (.right, 0, false), (.left, 0, false)] :
          List (Direction × Nat × Bool)).length = 5
    ∧ movesSucceed
        [(.left, 0, false), (.right, 0, false), (.left, 0, false),
          (.right, 0, false), (.left, 0, false)]
        ⟨[[2, 2, 0, 0], [0, 0, 0, 0], [0, 0, 0, 0], [0, 0, 0, 0]],
          0, 0, false, false, none, [], false⟩ = true
    ∧ (runMoves
        [(.left, 0, false), (.right, 0, false), (.left, 0, false),
          (.right, 0, false), (.left, 0, false)]
        ⟨[[2, 2, 0, 0], [0, 0, 0, 0], [0, 0, 0, 0], [0, 0, 0, 0]],
          0, 0, false, false, none, [], false⟩).history.length = 3
    ∧ undo ⟨[[4, 0, 0, 0], [0, 0, 0, 0], [0, 0, 0, 0], [0, 0, 0, 0]],
        4, 4, false, false, none, [], false⟩
      = (⟨[[4, 0, 0, 0], [0, 0, 0, 0], [0, 0, 0, 0], [0, 0, 0, 0]],
          4, 4, false, false, none, [], false⟩, false)
    ∧ undo ⟨[[4, 2, 0, 0], [0, 0, 0, 0], [0, 0, 0, 0], [0, 0, 0, 0]],
        4, 4, false, false, some (0, 1),
        [⟨[[2, 2, 0, 0], [0, 0, 0, 0], [0, 0, 0, 0], [0, 0, 0, 0]],
          0, false, false⟩], true⟩
      = (⟨[[2, 2, 0, 0], [0, 0, 0, 0], [0, 0, 0, 0], [0, 0, 0, 0]],
          0, 4, false, false, none, [], true⟩, true) := by
  have hmain := undo_history_contract
  refine ⟨by decide, rfl, rfl,
    hmain.2.1 _ _ (by decide) rfl rfl,
    hmain.2.2.1 _ rfl,
    hmain.2.2.2.1 _ _ _ rfl⟩

/-- **C9 counterexample.** The score is not monotonically
non-decreasing under every session-operation sequence: from a fresh
board `[[2,2,0,0],…]`, one successful left move raises the score to 4
and the following `undo` drops it back to 0. -/
theorem score_not_monotone_counterexample :
    ((applyMove .left 0 false
      ⟨[[2, 2, 0, 0], [0, 0, 0, 0], [0, 0, 0, 0], [0, 0, 0, 0]],
        0, 0, false, false, none, [], false⟩).1).score = 4
    ∧ ((undo ((applyMove .left 0 false
        ⟨[[2, 2, 0, 0], [0, 0, 0, 0], [0, 0, 0, 0], [0, 0, 0, 0]],
          0, 0, false, false, none, [], false⟩).1)).1).score = 0
    ∧ ¬ (((applyMove .left 0 false
        ⟨[[2, 2, 0, 0], [0, 0, 0, 0], [0, 0, 0, 0], [0, 0, 0, 0]],
          0, 0, false, false, none, [], false⟩).1).score
        ≤ ((undo ((applyMove .left 0 false
          ⟨[[2, 2, 0, 0], [0, 0, 0, 0], [0, 0, 0, 0], [0, 0, 0, 0]],
            0, 0, false, false, none, [], false⟩).1)).1).score) := by
  refine ⟨rfl, rfl, ?_⟩
  intro hle
  rw [show ((applyMove .left 0 false
      ⟨[[2, 2, 0, 0], [0, 0, 0, 0], [0, 0, 0, 0], [0, 0, 0, 0]],
        0, 0, false, false, none, [], false⟩).1).score = 4 from rfl,
    show ((undo ((applyMove .left 0 false
      ⟨[[2, 2, 0, 0], [0, 0, 0, 0], [0, 0, 0, 0], [0, 0, 0, 0]],
        0, 0, false, false, none, [], false⟩).1)).1).score = 0 from rfl]
    at hle
  omega

/-- **C9 (amended).** Within one game the score is a natural number
(hence ≥ 0) and never decreases across `applyMove` or `continueGame`;
`undo` restores the popped snapshot's score, which may be lower than
the current one. -/
theorem score_nonneg_and_monotone_except_undo :
    (∀ (dir : Direction) (pick : Nat) (four : Bool) (s : GameState),
      s.score ≤ ((applyMove dir pick four s).1).score)
    ∧ (∀ s : GameState, ((continueGame s).1).score = s.score)
    ∧ (∀ (s : GameState) (prev : HistEntry) (rest : List HistEntry),
        s.history = prev :: rest → ((undo s).1).score = prev.score) := by
  refine ⟨fun dir pick four s => ?_, fun s => rfl,
    fun s prev rest h => by simp [undo, h]⟩
  by_cases ho : s.over
  · rw [applyMove_over ho]
  · by_cases hm : (moveDirection dir s.board).moved
    · have ho' : s.over = false := by simpa using ho
      simp [applyMove, ho', hm]
    · rw [applyMove_not_moved (by simpa using ho) (by simpa using hm)]

/-- Witness for the amended C9 on a concrete state. -/
theorem score_nonneg_and_monotone_except_undo_witness :
    ((⟨[[4, 2, 0, 0], [0, 0, 0, 0], [0, 0, 0, 0], [0, 0, 0, 0]],
        4, 4, false, false, none,
        [⟨[[2, 2, 0, 0], [0, 0, 0, 0], [0, 0, 0, 0], [0, 0, 0, 0]],
          0, false, false⟩], false⟩ : GameState).history
      = [⟨[[2, 2, 0, 0], [0, 0, 0, 0], [0, 0, 0, 0], [0, 0, 0, 0]],
          0, false, false⟩])
    ∧ ((undo ⟨[[4, 2, 0, 0], [0, 0, 0, 0], [0, 0, 0, 0], [0, 0, 0, 0]],
        4, 4, false, false, none,
        [⟨[[2, 2, 0, 0], [0, 0, 0, 0], [0, 0, 0, 0], [0, 0, 0, 0]],
          0, false, false⟩], false⟩).1).score = 0
    ∧ (⟨[[2, 2, 0, 0], [0, 0, 0, 0], [0, 0, 0, 0], [0, 0, 0, 0]],
        0, 0, false, false, none, [], false⟩ : GameState).score
      ≤ ((applyMove .left 0 false
        ⟨[[2, 2, 0, 0], [0, 0, 0, 0], [0, 0, 0, 0], [0, 0, 0, 0]],
          0, 0, false, false, none, [], false⟩).1).score :=
  ⟨rfl,
   score_nonneg_and_monotone_except_undo.2.2 _ _ _ rfl,
   score_nonneg_and_monotone_except_undo.1 .left 0 false _⟩

/-! ## Global best aggregation

`computeGlobalBest` scans the persisted per-player snapshots; only the
dedicated global-best key and each snapshot's `best` field enter the
maximum. -/

/-- The fields of a persisted per-player snapshot read by the
global-best scan. -/
structure StoredSnap where
  best : Nat
  score : Nat
deriving DecidableEq, Repr

/-- `computeGlobalBest`: start from 0, raise to the persisted global
floor if positive, then raise to each stored snapshot's `best`. -/
def computeGlobalBest (globalFloor : Nat) (snaps : List StoredSnap) : Nat :=
  let g₀ := if globalFloor > 0 then globalFloor else 0
  snaps.foldl (fun g s => if s.best > g then s.best else g) g₀

theorem foldl_best_eq_max (snaps : List StoredSnap) (a : Nat) :
    snaps.foldl (fun g s => if s.best > g then s.best else g) a
      = max a ((snaps.map (·.best)).foldr max 0) := by
  induction snaps generalizing a with
  | nil => simp
  | cons s t ih =>
    simp only [List.foldl_cons, List.map_cons, List.foldr_cons]
    rw [ih]
    by_cases h : s.best > a <;> simp [h] <;> omega

/-- **C8.** The derived global best is exactly the maximum of the
persisted global floor and all stored per-player `best` values; the
stored `score` fields do not enter the result, and the value is a pure
recomputation from the store contents. -/
theorem computeGlobalBest_spec :
    (∀ (globalFloor : Nat) (snaps : List StoredSnap),
      computeGlobalBest globalFloor snaps
        = max globalFloor ((snaps.map (·.best)).foldr max 0))
    ∧ (∀ (globalFloor : Nat) (snaps : List StoredSnap)
        (f : StoredSnap → Nat),
      computeGlobalBest globalFloor
          (snaps.map fun s => { s with score := f s })
        = computeGlobalBest globalFloor snaps) := by
  constructor
  · intro globalFloor snaps
    simp only [computeGlobalBest]
    rw [foldl_best_eq_max]
    by_cases h : globalFloor > 0 <;> simp [h] <;> omega
  · intro globalFloor snaps f
    simp only [computeGlobalBest]
    rw [foldl_best_eq_max, foldl_best_eq_max, List.map_map]
    rfl

end Game2048
